import Mathlib

/-!
Verification of the EdgeStelle orchestrator core (Master coordinator,
Agent executor, bus-client dispatch) against its natural-language
specification.  The Python source under `src/` is shallowly embedded:
database rows become structures, SQLAlchemy updates become list maps,
handler bodies become pure functions returning the new store together
with the ordered trace of side effects (publishes, fan-out pushes,
database writes) they perform.  Wall-clock time (`datetime.utcnow`) is
an explicit integer parameter, and the random 12-hex identifiers drawn
by `uuid.uuid4().hex[:12]` are explicit `freshId` parameters.
-/

namespace EdgeStelle

/-- A row of the `nodes` table (`src/master/database.py`, class `Node`).
`cpu_percent` / `mem_percent` are stored verbatim and never computed
with, so they are embedded as integers. -/
structure NodeRow where
  id : String
  name : String
  ip : String
  status : String
  cpuPercent : Int
  memPercent : Int
  lastHeartbeat : Option Int
  deriving Repr, DecidableEq

/-- A row of the `executions` table (`src/master/database.py`, class
`Execution`).  `exit_code` and `finished_at` are nullable columns. -/
structure ExecutionRow where
  id : String
  nodeId : String
  command : String
  status : String
  exitCode : Option Int
  finishedAt : Option Int
  deriving Repr, DecidableEq

/-- A row of the `log_lines` table (`src/master/database.py`, class
`LogLine`). -/
structure LogRow where
  executionId : String
  stream : String
  content : String
  timestamp : Int
  deriving Repr, DecidableEq

/-- The Master's relational store: the three tables the coordinator
reads and writes. -/
structure Store where
  nodes : List NodeRow
  executions : List ExecutionRow
  logs : List LogRow
  deriving Repr, DecidableEq

/-- The empty store produced by `init_db`. -/
def Store.empty : Store := ⟨[], [], []⟩

/-- Events pushed to viewer WebSockets by `ws_manager`
(`src/master/ws_manager.py`): each constructor records the JSON object
a handler passes to `broadcast_global` / `push_log`. -/
inductive Event where
  | nodeUpdate (nodeId : String) (name : Option String) (status : String)
  | heartbeat (nodeId : String) (status : String) (cpu mem : Int) (ts : Option Int)
  | logLine (execId stream line : String) (ts : Option Int)
  | cmdDone (execId : String) (exitCode : Int) (status : String)
  deriving Repr, DecidableEq

/-- Wire messages the Master publishes on the bus
(`src/shared/protocol.py`). -/
inductive WireMsg where
  | registerAck (nodeId message : String)
  | registerNak (reason : String)
  | command (execId command : String)
  deriving Repr, DecidableEq

/-- One observable side effect of a handler, in program order:
bus publishes, database writes, and viewer fan-out pushes. -/
inductive Action where
  | publish (topic : String) (msg : WireMsg)
  | dbInsertNode (nodeId : String)
  | dbUpdateNode (nodeId : String)
  | dbInsertExecution (execId : String)
  | dbUpdateExecution (execId : String)
  | dbInsertLog (execId : String)
  | pushLog (nodeId : String) (ev : Event)
  | broadcastGlobal (ev : Event)
  deriving Repr, DecidableEq

/-- `topic_cmd` from `src/shared/protocol.py`. -/
def topic_cmd (nodeId : String) : String := "cmd/" ++ nodeId

/-- `TOPIC_REGISTER` from `src/shared/protocol.py`. -/
def TOPIC_REGISTER : String := "system/register"

/-- First node row with the given `name`
(`select(Node).where(Node.name == node_name)` + `scalar_one_or_none`;
`name` is kept unique by the registration flow so `find?` is exact). -/
def findNodeByName (s : Store) (n : String) : Option NodeRow :=
  s.nodes.find? (fun r => r.name == n)

/-- First node row with the given primary key
(`select(Node).where(Node.id == node_id)` + `scalar_one_or_none`). -/
def findNodeById (s : Store) (i : String) : Option NodeRow :=
  s.nodes.find? (fun r => r.id == i)

/-- The payload dictionary received on `system/register`; absent keys
are `none`, mirroring `payload.get(...)`. -/
structure RegisterPayload where
  type : Option String
  node_name : Option String
  secret_key : Option String
  ip : Option String
  deriving Repr, DecidableEq

/-- `_async_handle_register` (`src/master/mqtt_service.py` lines
108-165): type guard, pre-shared-key check with `register_nak` reply on
mismatch, then resolve identity by name — reuse the existing row
(update ip/status/heartbeat) or insert a fresh one — reply
`register_ack` and broadcast a `node_update{online}` event.
`secretKey` is `settings.secret_key`, `freshId` the value
`uuid.uuid4().hex[:12]` would draw, `now` is `datetime.utcnow()`. -/
def asyncHandleRegister (secretKey freshId : String) (now : Int)
    (s : Store) (p : RegisterPayload) : Store × List Action :=
  if p.type ≠ some "register_req" then (s, [])
  else if p.secret_key ≠ some secretKey then
    (s, [Action.publish TOPIC_REGISTER (WireMsg.registerNak "密钥错误")])
  else
    let nodeName := p.node_name.getD "unknown"
    let nodeIp := p.ip.getD ""
    match findNodeByName s nodeName with
    | some existing =>
        let s' : Store :=
          { s with nodes := s.nodes.map (fun r =>
              if r.id == existing.id then
                { r with ip := nodeIp, status := "online", lastHeartbeat := some now }
              else r) }
        (s', [Action.dbUpdateNode existing.id,
              Action.publish TOPIC_REGISTER
                (WireMsg.registerAck existing.id ("欢迎, " ++ nodeName ++ "!")),
              Action.broadcastGlobal (Event.nodeUpdate existing.id (some nodeName) "online")])
    | none =>
        let row : NodeRow :=
          ⟨freshId, nodeName, nodeIp, "online", 0, 0, some now⟩
        ({ s with nodes := s.nodes ++ [row] },
         [Action.dbInsertNode freshId,
          Action.publish TOPIC_REGISTER
            (WireMsg.registerAck freshId ("欢迎, " ++ nodeName ++ "!")),
          Action.broadcastGlobal (Event.nodeUpdate freshId (some nodeName) "online")])

/-- The payload dictionary received on `system/heartbeat`. -/
structure HeartbeatPayload where
  node_id : Option String
  status : Option String
  cpu_percent : Option Int
  mem_percent : Option Int
  timestamp : Option Int
  deriving Repr, DecidableEq

/-- `_async_handle_heartbeat` (`src/master/mqtt_service.py` lines
168-194): drop payloads whose `node_id` is missing or falsy, otherwise
`UPDATE nodes SET status, cpu_percent, mem_percent, last_heartbeat=now
WHERE id = node_id` and broadcast a `heartbeat` event. -/
def asyncHandleHeartbeat (now : Int) (s : Store) (p : HeartbeatPayload) :
    Store × List Action :=
  let nodeId := p.node_id.getD ""
  if nodeId == "" then (s, [])
  else
    let s' : Store :=
      { s with nodes := s.nodes.map (fun r =>
          if r.id == nodeId then
            { r with status := p.status.getD "idle",
                     cpuPercent := p.cpu_percent.getD 0,
                     memPercent := p.mem_percent.getD 0,
                     lastHeartbeat := some now }
          else r) }
    (s', [Action.dbUpdateNode nodeId,
          Action.broadcastGlobal
            (Event.heartbeat nodeId (p.status.getD "idle")
              (p.cpu_percent.getD 0) (p.mem_percent.getD 0) p.timestamp)])

/-- The payload dictionary received on a `log/+` topic: either a
`log_line` or a `cmd_done`, discriminated by `type`. -/
structure LogPayload where
  type : Option String
  node_id : Option String
  exec_id : Option String
  stream : Option String
  line : Option String
  exit_code : Option Int
  timestamp : Option Int
  deriving Repr, DecidableEq

/-- `_async_handle_log` (`src/master/mqtt_service.py` lines 197-258).
`log_line`: insert a `LogLine` row and push a `log_line` event to the
per-node subscribers.  `cmd_done`: set the execution's terminal fields
(`status = exit_code == 0 ? success : failed`, `exit_code`,
`finished_at = now`), set the node's status to `idle`, push a
`cmd_done` event to the per-node subscribers, then broadcast
`node_update{idle}` globally.  Any other type is ignored. -/
def asyncHandleLog (now : Int) (s : Store) (p : LogPayload) :
    Store × List Action :=
  let nodeId := p.node_id.getD ""
  let execId := p.exec_id.getD ""
  if p.type == some "log_line" then
    let row : LogRow :=
      ⟨execId, p.stream.getD "stdout", p.line.getD "", p.timestamp.getD 0⟩
    ({ s with logs := s.logs ++ [row] },
     [Action.dbInsertLog execId,
      Action.pushLog nodeId
        (Event.logLine execId (p.stream.getD "stdout") (p.line.getD "") p.timestamp)])
  else if p.type == some "cmd_done" then
    let exitCode := p.exit_code.getD (-1)
    let st := if exitCode == 0 then "success" else "failed"
    let s' : Store :=
      { s with
        executions := s.executions.map (fun e =>
          if e.id == execId then
            { e with status := st, exitCode := some exitCode, finishedAt := some now }
          else e),
        nodes := s.nodes.map (fun r =>
          if r.id == nodeId then { r with status := "idle" } else r) }
    (s', [Action.dbUpdateExecution execId,
          Action.dbUpdateNode nodeId,
          Action.pushLog nodeId (Event.cmdDone execId exitCode st),
          Action.broadcastGlobal (Event.nodeUpdate nodeId none "idle")])
  else (s, [])

/-- `dispatch_command` (`src/master/mqtt_service.py` lines 265-308):
insert a new `Execution` row in status `running`, `UPDATE nodes SET
status='busy' WHERE id = node_id`, publish the `cmd` message on
`cmd/<node_id>`, broadcast `node_update{busy}` and return the
`exec_id`.  `freshId` is the value `uuid.uuid4().hex[:12]` draws. -/
def dispatch_command (freshId : String) (s : Store) (nodeId command : String) :
    String × Store × List Action :=
  let execId := freshId
  let row : ExecutionRow := ⟨execId, nodeId, command, "running", none, none⟩
  let s' : Store :=
    { s with
      executions := s.executions ++ [row],
      nodes := s.nodes.map (fun r =>
        if r.id == nodeId then { r with status := "busy" } else r) }
  (execId,
   s',
   [Action.dbInsertExecution execId,
    Action.dbUpdateNode nodeId,
    Action.publish (topic_cmd nodeId) (WireMsg.command execId command),
    Action.broadcastGlobal (Event.nodeUpdate nodeId none "busy")])

/-- The outcome `POST /api/execute` reports to its HTTP caller. -/
inductive ApiResult where
  | ok (execId : String)
  | httpError (status : Nat) (detail : String)
  deriving Repr, DecidableEq

/-- `execute_command` (`src/master/api.py` lines 91-104): 404 if no
node row with the requested id exists, 400 if its status is
`offline`, otherwise delegate to `dispatch_command`.  An
`HTTPException` is raised before any write or publish, so the error
branches leave the store unchanged and perform no action. -/
def execute_command (freshId : String) (s : Store) (nodeId command : String) :
    ApiResult × Store × List Action :=
  match findNodeById s nodeId with
  | none => (ApiResult.httpError 404 "节点不存在", s, [])
  | some node =>
    if node.status == "offline" then
      (ApiResult.httpError 400 "节点离线，无法执行", s, [])
    else
      let r := dispatch_command freshId s nodeId command
      (ApiResult.ok r.1, r.2.1, r.2.2)

/-- Interval in seconds between liveness-sweeper passes
(`await asyncio.sleep(30)` in `_node_health_checker`,
`src/master/app.py` line 132). -/
def sweepIntervalSeconds : Int := 30

/-- Heartbeat staleness bound in seconds
(`datetime.timedelta(seconds=60)` in `_node_health_checker`,
`src/master/app.py` line 133). -/
def heartbeatTimeoutSeconds : Int := 60

/-- The selection predicate of one sweeper pass: `status != 'offline'
AND last_heartbeat < now - 60s`.  A SQL comparison against a NULL
`last_heartbeat` is not satisfied, hence the `Option` match. -/
def staleAt (now : Int) (r : NodeRow) : Bool :=
  r.status != "offline" &&
    (match r.lastHeartbeat with
     | some t => t < now - heartbeatTimeoutSeconds
     | none => false)

/-- One pass of `_node_health_checker` (`src/master/app.py` lines
130-154): select the stale nodes, set each one's status to `offline`
and broadcast one `node_update{offline}` event per stale node.  (The
row mutations are committed when the session block closes, after the
loop, so the trace records only the broadcasts.) -/
def nodeHealthPass (now : Int) (s : Store) : Store × List Action :=
  let stale := s.nodes.filter (staleAt now)
  ({ s with nodes := s.nodes.map (fun r =>
      if staleAt now r then { r with status := "offline" } else r) },
   stale.map (fun r =>
     Action.broadcastGlobal (Event.nodeUpdate r.id (some r.name) "offline")))

/-- One invocation of a coordinator entry point: the four bus handlers
plus the HTTP-driven dispatch and the liveness sweeper.  Identifier
draws and the wall clock are recorded in the operation. -/
inductive Op where
  | register (secretKey freshId : String) (now : Int) (p : RegisterPayload)
  | heartbeat (now : Int) (p : HeartbeatPayload)
  | log (now : Int) (p : LogPayload)
  | execute (freshId nodeId command : String)
  | sweep (now : Int)
  deriving Repr, DecidableEq

/-- Run one coordinator operation on the store. -/
def applyOp (op : Op) (s : Store) : Store × List Action :=
  match op with
  | Op.register secretKey freshId now p => asyncHandleRegister secretKey freshId now s p
  | Op.heartbeat now p => asyncHandleHeartbeat now s p
  | Op.log now p => asyncHandleLog now s p
  | Op.execute freshId nodeId command =>
      let r := execute_command freshId s nodeId command
      (r.2.1, r.2.2)
  | Op.sweep now => nodeHealthPass now s

/-- The op is a delivery of a `cmd_done` message to the log handler. -/
def Op.isCmdDone : Op → Prop
  | Op.log _ p => p.type = some "cmd_done"
  | _ => False

/-- Stores reachable from the empty store by coordinator operations. -/
inductive Reachable : Store → Prop where
  | init : Reachable Store.empty
  | step {s : Store} (op : Op) : Reachable s → Reachable (applyOp op s).1

-- ============================================================
-- Agent executor (`src/agent/executor.py`)
-- ============================================================

/-- Is a byte a UTF-8 continuation byte (`0x80-0xBF`)? -/
def isCont (b : Nat) : Bool := 0x80 ≤ b && b ≤ 0xBF

/-- Decode one UTF-8 sequence starting at lead byte `b` with the
remaining bytes `rest`: return the produced code point (U+FFFD
`0xFFFD` on an invalid maximal subpart) and how many bytes of `rest`
the sequence consumed beyond the lead byte. -/
def utf8Step (b : Nat) (rest : List Nat) : Nat × Nat :=
  if b ≤ 0x7F then (b, 0)
  else if 0xC2 ≤ b && b ≤ 0xDF then
    match rest with
    | b2 :: _ =>
      if isCont b2 then ((b - 0xC0) * 0x40 + (b2 - 0x80), 1)
      else (0xFFFD, 0)
    | [] => (0xFFFD, 0)
  else if 0xE0 ≤ b && b ≤ 0xEF then
    match rest with
    | b2 :: r2 =>
      let lo2 := if b == 0xE0 then 0xA0 else 0x80
      let hi2 := if b == 0xED then 0x9F else 0xBF
      if lo2 ≤ b2 && b2 ≤ hi2 then
        match r2 with
        | b3 :: _ =>
          if isCont b3 then
            ((b - 0xE0) * 0x1000 + (b2 - 0x80) * 0x40 + (b3 - 0x80), 2)
          else (0xFFFD, 1)
        | [] => (0xFFFD, 1)
      else (0xFFFD, 0)
    | [] => (0xFFFD, 0)
  else if 0xF0 ≤ b && b ≤ 0xF4 then
    match rest with
    | b2 :: r2 =>
      let lo2 := if b == 0xF0 then 0x90 else 0x80
      let hi2 := if b == 0xF4 then 0x8F else 0xBF
      if lo2 ≤ b2 && b2 ≤ hi2 then
        match r2 with
        | b3 :: r3 =>
          if isCont b3 then
            match r3 with
            | b4 :: _ =>
              if isCont b4 then
                ((b - 0xF0) * 0x40000 + (b2 - 0x80) * 0x1000 +
                  (b3 - 0x80) * 0x40 + (b4 - 0x80), 3)
              else (0xFFFD, 2)
            | [] => (0xFFFD, 2)
          else (0xFFFD, 1)
        | [] => (0xFFFD, 1)
      else (0xFFFD, 0)
    | [] => (0xFFFD, 0)
  else (0xFFFD, 0)

/-- Decode with structural recursion on a fuel bound; each step
consumes at least the lead byte, so fuel equal to the list length
suffices. -/
def utf8DecodeAux : Nat → List Nat → List Nat
  | 0, _ => []
  | _, [] => []
  | fuel + 1, b :: rest =>
    let r := utf8Step b rest
    r.1 :: utf8DecodeAux fuel (rest.drop r.2)

/-- UTF-8 decoding with replacement of invalid sequences, as performed
by Python's `bytes.decode("utf-8", errors="replace")`: each maximal
invalid subpart is replaced by one U+FFFD (`0xFFFD`).  Bytes in, code
points out. -/
def utf8DecodeReplace (l : List Nat) : List Nat :=
  utf8DecodeAux l.length l

/-- Is a code point one of the characters of the Python strip set
`"\n\r"` (LF `10` or CR `13`)? -/
def isNewlineChar (c : Nat) : Bool := c == 10 || c == 13

/-- Python's `str.rstrip("\n\r")`: remove every trailing character
belonging to the set, however many there are. -/
def pyRstripNewlines (l : List Nat) : List Nat :=
  (l.reverse.dropWhile isNewlineChar).reverse

/-- The `line` value `_read_stream` publishes for one raw line read
from the subprocess (`src/agent/executor.py` line 65):
`line_bytes.decode("utf-8", errors="replace").rstrip("\n\r")`. -/
def readStreamLine (lineBytes : List Nat) : List Nat :=
  pyRstripNewlines (utf8DecodeReplace lineBytes)

/-- Modelled from the spec: "for each line, strip a single trailing
`\n` or `\r\n`" — remove exactly one trailing LF, together with the CR
directly before it if present, and nothing else. -/
def specStripOneTerminator (l : List Nat) : List Nat :=
  match l.reverse with
  | 10 :: 13 :: r => r.reverse
  | 10 :: r => r.reverse
  | _ => l

/-- The spec's reading of the published `line` field: decode, then
strip one terminator. -/
def specReadStreamLine (lineBytes : List Nat) : List Nat :=
  specStripOneTerminator (utf8DecodeReplace lineBytes)

-- ============================================================
-- Bus client dispatch (`src/shared/mqtt_wrapper.py`)
-- ============================================================

/-- Split a character stream into topic levels at `/`, accumulating
the current level in reverse. -/
def splitSlashAux : List Char → List Char → List String
  | [], cur => [String.mk cur.reverse]
  | c :: rest, cur =>
    if c = '/' then String.mk cur.reverse :: splitSlashAux rest []
    else splitSlashAux rest (c :: cur)

/-- The `/`-separated levels of a topic string (the effect of
`topic.split("/")` in the matcher). -/
def splitSlash (s : String) : List String :=
  splitSlashAux s.data []

/-- Does a string start with the reserved `$` character? -/
def startsWithDollar (s : String) : Bool :=
  s.data.head? == some '$'

/-- Do subscription-pattern levels match topic levels?  A `+` level
matches any single topic level; other levels match literally.  (The
repository registers only literal topics and the single-level wildcard
`log/+`; the multi-level `#` form is never used.) -/
def levelsMatch : List String → List String → Bool
  | [], [] => true
  | p :: ps, t :: ts => (p == "+" || p == t) && levelsMatch ps ts
  | _, _ => false

/-- `paho.mqtt.client.topic_matches_sub` restricted to the pattern
forms the code registers: split both strings on `/` and match level by
level; a wildcard never matches the first level of a `$`-prefixed
topic. -/
def topic_matches_sub (sub topic : String) : Bool :=
  let ps := splitSlash sub
  let ts := splitSlash topic
  if startsWithDollar topic then
    match ps, ts with
    | p :: ps', t :: ts' => p == t && levelsMatch ps' ts'
    | _, _ => false
  else levelsMatch ps ts

/-- The handler table `self._topic_handlers`: a Python dict from
subscription pattern to handler, embedded as an association list in
insertion order with unique keys.  Handlers are identified by a
number. -/
abbrev HandlerTable := List (String × Nat)

/-- `MQTTClientWrapper.subscribe`'s effect on the handler dict:
assigning an existing key replaces its value in place, a new key is
appended. -/
def registerHandler (hs : HandlerTable) (pattern : String) (h : Nat) : HandlerTable :=
  if hs.any (fun x => x.1 == pattern) then
    hs.map (fun x => if x.1 == pattern then (pattern, h) else x)
  else hs ++ [(pattern, h)]

/-- `MQTTClientWrapper._on_message` (`src/shared/mqtt_wrapper.py`
lines 149-177) after successful JSON parsing: try the exact-topic
entry of the dict first; failing that, scan the registered patterns in
insertion order with `topic_matches_sub` and deliver to the first
match; return without delivery if nothing matches. -/
def onMessage (hs : HandlerTable) (topic : String) : Option Nat :=
  match hs.find? (fun x => x.1 == topic) with
  | some x => some x.2
  | none => (hs.find? (fun x => topic_matches_sub x.1 topic)).map (fun x => x.2)

/-- Modelled from the spec: "Matching delivers to exactly one handler
(the first match in registration order)" — the first pattern in
insertion order that matches the topic, with no precedence for exact
entries. -/
def specFirstMatchDelivery (hs : HandlerTable) (topic : String) : Option Nat :=
  (hs.find? (fun x => topic_matches_sub x.1 topic)).map (fun x => x.2)

-- ============================================================
-- Observation helpers used by the theorems
-- ============================================================

/-- Is the action a database write? -/
def Action.isDbWrite : Action → Bool
  | Action.dbInsertNode _ => true
  | Action.dbUpdateNode _ => true
  | Action.dbInsertExecution _ => true
  | Action.dbUpdateExecution _ => true
  | Action.dbInsertLog _ => true
  | _ => false

/-- Is the action a viewer fan-out push (per-node or global)? -/
def Action.isFanout : Action → Bool
  | Action.pushLog _ _ => true
  | Action.broadcastGlobal _ => true
  | _ => false

/-- Is the action a push to the per-node log subscribers? -/
def Action.isPushLog : Action → Bool
  | Action.pushLog _ _ => true
  | _ => false

/-- Is the action a broadcast to the global subscribers? -/
def Action.isBroadcast : Action → Bool
  | Action.broadcastGlobal _ => true
  | _ => false

/-- The node ids carried by the `register_ack` messages of a trace. -/
def ackIds (tr : List Action) : List String :=
  tr.filterMap (fun a =>
    match a with
    | Action.publish _ (WireMsg.registerAck i _) => some i
    | _ => none)

/-- The `cmd` messages of a trace, with their topics. -/
def cmdPublishes (tr : List Action) : List (String × String × String) :=
  tr.filterMap (fun a =>
    match a with
    | Action.publish t (WireMsg.command e c) => some (t, e, c)
    | _ => none)

/-- A well-formed `register_req` payload for name `n`, key `k`, ip
`ip`, as `RegisterRequest` serializes it. -/
def reqPayload (n k ip : String) : RegisterPayload :=
  ⟨some "register_req", some n, some k, some ip⟩

/-- Deliver a sequence of `register_req`s for the same `node_name` to
the Master, each request recording the identifier draw, the reported
ip and the wall clock: `(freshId, ip, now)`.  Returns the final store
and the per-request action traces. -/
def registerRun (secretKey n : String) (reqs : List (String × String × Int))
    (s : Store) : Store × List (List Action) :=
  match reqs with
  | [] => (s, [])
  | (f, ip, now) :: rest =>
      let r := asyncHandleRegister secretKey f now s (reqPayload n secretKey ip)
      let r2 := registerRun secretKey n rest r.1
      (r2.1, r.2 :: r2.2)

/-- The fields of an execution row other than `finished_at`. -/
def stripFinished (e : ExecutionRow) : String × String × String × String × Option Int :=
  (e.id, e.nodeId, e.command, e.status, e.exitCode)

/-- The invariant of claim C2 on a store: every non-`running`
execution has its exit code and finish time set, and its status agrees
with the exit code. -/
def ExecInv (s : Store) : Prop :=
  ∀ e ∈ s.executions, e.status ≠ "running" →
    (∃ c, e.exitCode = some c ∧ e.status = (if c = 0 then "success" else "failed")) ∧
      e.finishedAt.isSome = true

/-- There is exactly one node named `n` in the store, it has id `fid`
and status `online`, and no other row shares its name or id. -/
def UniqueOnlineNode (s : Store) (n fid : String) : Prop :=
  ∃ pre nd post, s.nodes = pre ++ nd :: post ∧
    nd.name = n ∧ nd.id = fid ∧ nd.status = "online" ∧
    (∀ r ∈ pre, r.name ≠ n ∧ r.id ≠ fid) ∧
    (∀ r ∈ post, r.name ≠ n ∧ r.id ≠ fid)

/-- A registration request carrying a wrong pre-shared key. -/
def badKeyReq : RegisterPayload :=
  ⟨some "register_req", some "edge-01", some "wrong-key", some ""⟩

/-- A store holding one busy node running one execution — the state
right after a dispatch. -/
def doneStore : Store :=
  ⟨[⟨"n1", "edge-01", "", "busy", 0, 0, some 0⟩],
   [⟨"e1", "n1", "echo hi", "running", none, none⟩], []⟩

/-- A `cmd_done` message for execution `e1` on node `n1` with exit
code 0. -/
def donePayload : LogPayload :=
  ⟨some "cmd_done", some "n1", some "e1", none, none, some 0, none⟩

-- ============================================================
-- Theorems
-- ============================================================

/-- C10: the Master's register handler is a no-op — no database write,
no publish, no viewer broadcast — for every payload on
`system/register` whose type discriminator is not `register_req`, in
particular for the `register_ack` / `register_nak` replies the Master
itself publishes on that shared topic. -/
theorem register_handler_ignores_non_requests :
    ∀ (k f : String) (now : Int) (s : Store) (p : RegisterPayload),
      p.type ≠ some "register_req" →
      asyncHandleRegister k f now s p = (s, []) := by
  intro k f now s p h
  simp [asyncHandleRegister, h]

/-- Witness for C10: a `register_ack` delivered back to the Master
leaves the store untouched and performs no action. -/
theorem register_handler_ignores_non_requests_witness :
    asyncHandleRegister "key" "f" 0 Store.empty ⟨some "register_ack", none, none, none⟩
      = (Store.empty, []) :=
  register_handler_ignores_non_requests "key" "f" 0 Store.empty _ (by decide)

/-- C5 (amended): on a `register_req` whose secret key differs from
the configured pre-shared key, the Master publishes exactly one
`register_nak` — whose reason is the fixed string `密钥错误` — on
`system/register`, and changes nothing else: the store is untouched
and no ack or broadcast happens. -/
theorem register_nak_on_bad_key :
    ∀ (k f : String) (now : Int) (s : Store) (p : RegisterPayload),
      p.type = some "register_req" → p.secret_key ≠ some k →
      asyncHandleRegister k f now s p
        = (s, [Action.publish TOPIC_REGISTER (WireMsg.registerNak "密钥错误")]) := by
  intro k f now s p ht hk
  simp [asyncHandleRegister, ht, hk]

/-- Witness for C5 (amended): a concrete wrong-key request yields only
the nak publish. -/
theorem register_nak_on_bad_key_witness :
    asyncHandleRegister "master-secret" "f" 0 Store.empty badKeyReq
      = (Store.empty, [Action.publish TOPIC_REGISTER (WireMsg.registerNak "密钥错误")]) :=
  register_nak_on_bad_key "master-secret" "f" 0 Store.empty badKeyReq (by decide) (by decide)

/-- C5 counterexample: the nak published for a wrong-key registration
carries the reason string `密钥错误`, not `secret mismatch` as the
claim states. -/
theorem register_nak_reason_counterexample :
    (asyncHandleRegister "master-secret" "f" 0 Store.empty badKeyReq).2
        = [Action.publish TOPIC_REGISTER (WireMsg.registerNak "密钥错误")] ∧
      Action.publish TOPIC_REGISTER (WireMsg.registerNak "secret mismatch")
        ∉ (asyncHandleRegister "master-secret" "f" 0 Store.empty badKeyReq).2 := by
  decide

/-- C1: `POST /api/execute` fails with 404 when no node row with the
requested id exists and with 400 when the node is `offline`, in both
cases leaving the store unchanged and performing no action (so no
execution row and no `cmd` publish); otherwise — any status other
than `offline`, `busy` included — it appends exactly one new
`Execution` row in status `running`, sets only that node's status to
`busy`, publishes exactly one `cmd` message on `cmd/<node_id>`
carrying the new `exec_id` and the command text, and returns that
`exec_id`. -/
theorem execute_command_contract :
    ∀ (freshId : String) (s : Store) (nid cmd : String),
      (findNodeById s nid = none →
        execute_command freshId s nid cmd
          = (ApiResult.httpError 404 "节点不存在", s, [])) ∧
      (∀ node, findNodeById s nid = some node → node.status = "offline" →
        execute_command freshId s nid cmd
          = (ApiResult.httpError 400 "节点离线，无法执行", s, [])) ∧
      (∀ node, findNodeById s nid = some node → node.status ≠ "offline" →
        (execute_command freshId s nid cmd).1 = ApiResult.ok freshId ∧
        (execute_command freshId s nid cmd).2.1.executions
          = s.executions ++ [⟨freshId, nid, cmd, "running", none, none⟩] ∧
        (execute_command freshId s nid cmd).2.1.logs = s.logs ∧
        (∀ i (hi : i < s.nodes.length),
          (execute_command freshId s nid cmd).2.1.nodes[i]?
            = some (if (s.nodes[i]).id = nid
                    then { s.nodes[i] with status := "busy" }
                    else s.nodes[i])) ∧
        cmdPublishes (execute_command freshId s nid cmd).2.2
          = [(topic_cmd nid, freshId, cmd)]) := by
  intro freshId s nid cmd
  refine ⟨fun h => by simp [execute_command, h], fun node h hoff => ?_, fun node h hne => ?_⟩
  · simp [execute_command, h, hoff]
  · have hguard : (node.status == "offline") = false := by
      simpa using hne
    refine ⟨by simp [execute_command, h, hguard, dispatch_command],
            by simp [execute_command, h, hguard, dispatch_command],
            by simp [execute_command, h, hguard, dispatch_command], ?_,
            by simp [execute_command, h, hguard, dispatch_command, cmdPublishes]⟩
    intro i hi
    simp only [execute_command, h, hguard, dispatch_command, Bool.false_eq_true, if_false]
    rw [List.getElem?_map, List.getElem?_eq_getElem hi]
    by_cases hid : (s.nodes[i]).id = nid <;> simp [hid]

/-- Witness for C1: dispatching `echo hi` to the busy node `n1` of
`doneStore` succeeds, returns the drawn `exec_id` and publishes one
`cmd` message on `cmd/n1`. -/
theorem execute_command_contract_witness :
    (execute_command "e9" doneStore "n1" "echo hi").1 = ApiResult.ok "e9" ∧
      cmdPublishes (execute_command "e9" doneStore "n1" "echo hi").2.2
        = [(topic_cmd "n1", "e9", "echo hi")] :=
  ⟨((execute_command_contract "e9" doneStore "n1" "echo hi").2.2
      ⟨"n1", "edge-01", "", "busy", 0, 0, some 0⟩ (by decide) (by decide)).1,
   ((execute_command_contract "e9" doneStore "n1" "echo hi").2.2
      ⟨"n1", "edge-01", "", "busy", 0, 0, some 0⟩ (by decide) (by decide)).2.2.2.2⟩

/-- C8: within the handling of one `cmd_done` message, the two
database updates (execution row, then node row) precede every fan-out
push in program order, and the `cmd_done` push to the per-node log
subscribers strictly precedes the `node_update{idle}` broadcast to
the global subscribers. -/
theorem cmd_done_handler_ordering :
    ∀ (now : Int) (s : Store) (p : LogPayload), p.type = some "cmd_done" →
      ((asyncHandleLog now s p).2
        = [Action.dbUpdateExecution (p.exec_id.getD ""),
           Action.dbUpdateNode (p.node_id.getD ""),
           Action.pushLog (p.node_id.getD "")
             (Event.cmdDone (p.exec_id.getD "") (p.exit_code.getD (-1))
               (if p.exit_code.getD (-1) == 0 then "success" else "failed")),
           Action.broadcastGlobal (Event.nodeUpdate (p.node_id.getD "") none "idle")]) ∧
      (∀ (i j : Nat) (a b : Action),
         (asyncHandleLog now s p).2[i]? = some a →
         (asyncHandleLog now s p).2[j]? = some b →
         a.isDbWrite = true → b.isFanout = true → i < j) ∧
      (∀ (i j : Nat) (a b : Action),
         (asyncHandleLog now s p).2[i]? = some a →
         (asyncHandleLog now s p).2[j]? = some b →
         a.isPushLog = true → b.isBroadcast = true → i < j) := by
  intro now s p ht
  have htr : (asyncHandleLog now s p).2
      = [Action.dbUpdateExecution (p.exec_id.getD ""),
         Action.dbUpdateNode (p.node_id.getD ""),
         Action.pushLog (p.node_id.getD "")
           (Event.cmdDone (p.exec_id.getD "") (p.exit_code.getD (-1))
             (if p.exit_code.getD (-1) == 0 then "success" else "failed")),
         Action.broadcastGlobal (Event.nodeUpdate (p.node_id.getD "") none "idle")] := by
    simp [asyncHandleLog, ht]
  refine ⟨htr, ?_, ?_⟩ <;>
  · intro i j a b ha hb hp hq
    rw [htr] at ha hb
    have hi : i < 4 := by
      by_contra hge
      rw [List.getElem?_eq_none (by simpa using Nat.le_of_not_lt hge)] at ha
      exact Option.noConfusion ha
    have hj : j < 4 := by
      by_contra hge
      rw [List.getElem?_eq_none (by simpa using Nat.le_of_not_lt hge)] at hb
      exact Option.noConfusion hb
    interval_cases i <;> interval_cases j <;>
      simp only [List.getElem?_cons_zero, List.getElem?_cons_succ, Option.some.injEq] at ha hb <;>
      subst ha <;> subst hb <;>
      simp_all [Action.isDbWrite, Action.isFanout, Action.isPushLog, Action.isBroadcast]

/-- Witness for C8: the ordering statement instantiated on the
concrete completion of execution `e1` on node `n1`. -/
theorem cmd_done_handler_ordering_witness :
    (asyncHandleLog 7 doneStore donePayload).2
      = [Action.dbUpdateExecution "e1", Action.dbUpdateNode "n1",
         Action.pushLog "n1" (Event.cmdDone "e1" 0 "success"),
         Action.broadcastGlobal (Event.nodeUpdate "n1" none "idle")] :=
  (cmd_done_handler_ordering 7 doneStore donePayload (by decide)).1

/-- C9: a liveness-sweeper pass (scheduled every 30 seconds) marks
`offline` exactly the nodes whose status is not `offline` and whose
last heartbeat lies strictly more than 60 seconds in the past,
broadcasting one `node_update{offline}` event per such node; every
other node row, and the execution and log tables, are untouched. -/
theorem health_sweep_pass :
    ∀ (now : Int) (s : Store),
      (∀ r : NodeRow, staleAt now r = true ↔
        (r.status ≠ "offline" ∧ ∃ t, r.lastHeartbeat = some t ∧ now - t > 60)) ∧
      (nodeHealthPass now s).1.nodes.length = s.nodes.length ∧
      (∀ i (hi : i < s.nodes.length),
        (nodeHealthPass now s).1.nodes[i]?
          = some (if staleAt now (s.nodes[i]) = true
                  then { s.nodes[i] with status := "offline" }
                  else s.nodes[i])) ∧
      (nodeHealthPass now s).1.executions = s.executions ∧
      (nodeHealthPass now s).1.logs = s.logs ∧
      (nodeHealthPass now s).2
        = (s.nodes.filter (staleAt now)).map
            (fun r => Action.broadcastGlobal (Event.nodeUpdate r.id (some r.name) "offline")) ∧
      sweepIntervalSeconds = 30 := by
  intro now s
  refine ⟨?_, by simp [nodeHealthPass], ?_, rfl, rfl, rfl, rfl⟩
  · intro r
    cases hlb : r.lastHeartbeat with
    | none => simp [staleAt, hlb, heartbeatTimeoutSeconds]
    | some t =>
      constructor
      · intro h
        simp only [staleAt, hlb, heartbeatTimeoutSeconds, Bool.and_eq_true, bne_iff_ne,
          decide_eq_true_eq] at h
        exact ⟨h.1, t, rfl, by omega⟩
      · intro ⟨h1, t', ht', h2⟩
        cases ht'
        simp only [staleAt, hlb, heartbeatTimeoutSeconds, Bool.and_eq_true, bne_iff_ne,
          decide_eq_true_eq]
        exact ⟨h1, by omega⟩
  · intro i hi
    simp only [nodeHealthPass]
    rw [List.getElem?_map, List.getElem?_eq_getElem hi]
    by_cases hst : staleAt now (s.nodes[i]) = true <;> simp [hst]

/-- Witness for C9: one pass at time 100 over a fleet with heartbeats
at 10 (stale), 50 (fresh) and an already-offline node broadcasts
exactly one offline event and flips exactly the stale node. -/
theorem health_sweep_pass_witness :
    (nodeHealthPass 100 ⟨[⟨"n1", "a", "", "online", 0, 0, some 10⟩,
                          ⟨"n2", "b", "", "online", 0, 0, some 50⟩,
                          ⟨"n3", "c", "", "offline", 0, 0, some 0⟩], [], []⟩).2
      = [Action.broadcastGlobal (Event.nodeUpdate "n1" (some "a") "offline")] :=
  (health_sweep_pass 100 ⟨[⟨"n1", "a", "", "online", 0, 0, some 10⟩,
                           ⟨"n2", "b", "", "online", 0, 0, some 50⟩,
                           ⟨"n3", "c", "", "offline", 0, 0, some 0⟩], [], []⟩).2.2.2.2.2.1

/-- Helper: the first element surviving `dropWhile` fails the
predicate. -/
lemma head_dropWhile_false {α : Type} (p : α → Bool) :
    ∀ (l : List α) (a : α), (l.dropWhile p).head? = some a → p a = false := by
  intro l
  induction l with
  | nil => intro a h; simp [List.dropWhile] at h
  | cons x xs ih =>
    intro a h
    by_cases hx : p x
    · rw [List.dropWhile_cons_of_pos hx] at h
      exact ih a h
    · rw [List.dropWhile_cons_of_neg hx] at h
      simp at h
      rw [← h]
      exact Bool.eq_false_iff.mpr hx

/-- C6 counterexample: for the raw line bytes `"x\r\r\n"` the
executor publishes `"x"` — `rstrip("\n\r")` removes the whole
trailing run of CR/LF bytes — whereas stripping exactly one trailing
`\n`/`\r\n` terminator as the claim states would leave `"x\r"`. -/
theorem read_stream_line_counterexample :
    readStreamLine [120, 13, 13, 10] = [120] ∧
      specReadStreamLine [120, 13, 13, 10] = [120, 13] ∧
      readStreamLine [120, 13, 13, 10] ≠ specReadStreamLine [120, 13, 13, 10] := by
  decide

/-- C6 (amended): the published `line` equals the raw bytes decoded as
UTF-8 with invalid sequences replaced and then with the entire
maximal trailing run of `\n` / `\r` characters removed — no other
character is removed, and the result never ends in `\n` or `\r`. -/
theorem read_stream_line_strips_trailing_newlines :
    ∀ lineBytes : List Nat,
      ∃ suffix : List Nat,
        utf8DecodeReplace lineBytes = readStreamLine lineBytes ++ suffix ∧
        (∀ c ∈ suffix, c = 10 ∨ c = 13) ∧
        (∀ c, (readStreamLine lineBytes).getLast? = some c → c ≠ 10 ∧ c ≠ 13) := by
  intro bs
  set d := utf8DecodeReplace bs with hd
  refine ⟨(d.reverse.takeWhile isNewlineChar).reverse, ?_, ?_, ?_⟩
  · conv_lhs => rw [← List.reverse_reverse d,
      ← List.takeWhile_append_dropWhile (p := isNewlineChar) (l := d.reverse)]
    rw [List.reverse_append]
    rfl
  · intro c hc
    rw [List.mem_reverse] at hc
    have := List.mem_takeWhile_imp hc
    simp only [isNewlineChar, Bool.or_eq_true, beq_iff_eq] at this
    exact this
  · intro c hc
    have hh : (d.reverse.dropWhile isNewlineChar).head? = some c := by
      rw [← List.getLast?_reverse]
      exact hc
    have := head_dropWhile_false isNewlineChar d.reverse c hh
    simp only [isNewlineChar, Bool.or_eq_false_iff, beq_eq_false_iff_ne] at this
    exact this

/-- Witness for C6 (amended): the characterization instantiated on the
line bytes `"hi\r\n"`. -/
theorem read_stream_line_strips_trailing_newlines_witness :
    ∃ suffix : List Nat,
      utf8DecodeReplace [104, 105, 13, 10] = readStreamLine [104, 105, 13, 10] ++ suffix ∧
      (∀ c ∈ suffix, c = 10 ∨ c = 13) ∧
      (∀ c, (readStreamLine [104, 105, 13, 10]).getLast? = some c → c ≠ 10 ∧ c ≠ 13) :=
  read_stream_line_strips_trailing_newlines [104, 105, 13, 10]

/-- Helper: reflexivity of level matching. -/
lemma levelsMatch_refl : ∀ l : List String, levelsMatch l l = true := by
  intro l
  induction l with
  | nil => rfl
  | cons x xs ih => simp [levelsMatch, ih]

/-- Helper: the splitter always yields at least one level. -/
lemma splitSlashAux_ne_nil : ∀ (cs cur : List Char), splitSlashAux cs cur ≠ [] := by
  intro cs
  induction cs with
  | nil => intro cur; simp [splitSlashAux]
  | cons c rest ih =>
    intro cur
    by_cases hc : c = '/'
    · simp [splitSlashAux, hc]
    · simp only [splitSlashAux, if_neg hc]
      exact ih _

/-- Helper: every subscription pattern matches its own literal
topic. -/
lemma topic_matches_sub_self (t : String) : topic_matches_sub t t = true := by
  unfold topic_matches_sub
  split
  · cases hsp : splitSlash t with
    | nil => exact absurd hsp (splitSlashAux_ne_nil t.data [])
    | cons x xs => simp [levelsMatch_refl]
  · exact levelsMatch_refl _

/-- Helper: `find?` returns the element at the first index whose
predicate holds. -/
lemma find_at_first_index {α : Type} (p : α → Bool) :
    ∀ (l : List α) (i : Nat) (hi : i < l.length),
      p (l.get ⟨i, hi⟩) = true →
      (∀ j (hj : j < l.length), j < i → p (l.get ⟨j, hj⟩) = false) →
      l.find? p = some (l.get ⟨i, hi⟩) := by
  intro l
  induction l with
  | nil => intro i hi; simp at hi
  | cons x xs ih =>
    intro i hi hp hmin
    cases i with
    | zero => simp_all [List.find?_cons_of_pos]
    | succ k =>
      have hx : p x = false := hmin 0 (by simp) (Nat.succ_pos k)
      rw [List.find?_cons_of_neg _ (by simp [hx])]
      exact ih k (Nat.lt_of_succ_lt_succ hi) hp
        (fun j hj hjk => hmin (j + 1) (by simpa using Nat.succ_lt_succ hj)
          (Nat.succ_lt_succ hjk))

/-- Helper: in an association list with nodup keys, any two entries
with the same key are the same entry. -/
lemma nodup_keys_eq {β : Type} :
    ∀ (l : List (String × β)) (a b : String × β),
      (l.map Prod.fst).Nodup → a ∈ l → b ∈ l → a.1 = b.1 → a = b := by
  intro l
  induction l with
  | nil => intro a b _ ha; simp at ha
  | cons x xs ih =>
    intro a b hnd ha hb hk
    rw [List.map_cons, List.nodup_cons] at hnd
    rcases List.mem_cons.mp ha with rfl | ha' <;>
      rcases List.mem_cons.mp hb with rfl | hb'
    · rfl
    · exact absurd (hk ▸ List.mem_map_of_mem Prod.fst hb') hnd.1
    · exact absurd (hk ▸ List.mem_map_of_mem Prod.fst ha') hnd.1
    · exact ih a b hnd.2 ha' hb' hk

/-- C7 counterexample: with the wildcard pattern `log/+` registered
before the literal topic `log/a`, a message on `log/a` is delivered to
the exact-topic handler 2, not to handler 1 — the first match in
registration order — as the claim states. -/
theorem on_message_counterexample :
    onMessage [("log/+", 1), ("log/a", 2)] "log/a" = some 2 ∧
      specFirstMatchDelivery [("log/+", 1), ("log/a", 2)] "log/a" = some 1 ∧
      onMessage [("log/+", 1), ("log/a", 2)] "log/a"
        ≠ specFirstMatchDelivery [("log/+", 1), ("log/a", 2)] "log/a" := by
  decide

/-- C7 (amended): `_on_message` delivers each message to exactly one
handler: the handler registered under the message's exact topic when
one exists (regardless of registration order), otherwise the first
handler in registration order whose pattern matches the topic; a
message matching no registered pattern is discarded without invoking
any handler. -/
theorem on_message_delivery :
    ∀ (hs : HandlerTable) (topic : String),
      ((∀ x ∈ hs, topic_matches_sub x.1 topic = false) → onMessage hs topic = none) ∧
      (∀ h : Nat, (hs.map Prod.fst).Nodup → (topic, h) ∈ hs → onMessage hs topic = some h) ∧
      ((∀ x ∈ hs, x.1 ≠ topic) →
        ∀ i (hi : i < hs.length),
          topic_matches_sub (hs.get ⟨i, hi⟩).1 topic = true →
          (∀ j (hj : j < hs.length), j < i →
            topic_matches_sub (hs.get ⟨j, hj⟩).1 topic = false) →
          onMessage hs topic = some (hs.get ⟨i, hi⟩).2) := by
  intro hs topic
  refine ⟨?_, ?_, ?_⟩
  · intro hnone
    have hex : hs.find? (fun x => x.1 == topic) = none := by
      rw [List.find?_eq_none]
      intro x hx
      simp only [beq_iff_eq, Bool.not_eq_true]
      intro hxe
      have := hnone x hx
      rw [hxe] at this
      rw [topic_matches_sub_self] at this
      exact Bool.noConfusion this
    have hwild : hs.find? (fun x => topic_matches_sub x.1 topic) = none := by
      rw [List.find?_eq_none]
      intro x hx
      simp [hnone x hx]
    simp [onMessage, hex, hwild]
  · intro h hnd hmem
    have hsome : (hs.find? (fun x => x.1 == topic)).isSome = true :=
      List.find?_isSome.mpr ⟨(topic, h), hmem, by simp⟩
    obtain ⟨x, hx⟩ := Option.isSome_iff_exists.mp hsome
    have hxk : x.1 = topic := by
      have := List.find?_some hx
      simpa using this
    have hxm : x ∈ hs := List.mem_of_find?_eq_some hx
    have : x = (topic, h) := nodup_keys_eq hs x (topic, h) hnd hxm hmem (by simp [hxk])
    simp [onMessage, hx, this]
  · intro hnoexact i hi hp hmin
    have hex : hs.find? (fun x => x.1 == topic) = none := by
      rw [List.find?_eq_none]
      intro x hx
      simp [hnoexact x hx]
    have hfound := find_at_first_index (fun x => topic_matches_sub x.1 topic) hs i hi hp hmin
    simp [onMessage, hex, hfound]

/-- Witness for C7 (amended): the wildcard clause instantiated on a
table holding only `log/+`: a `log/a` message goes to its single
handler. -/
theorem on_message_delivery_witness :
    onMessage [("log/+", 1)] "log/a" = some 1 :=
  (on_message_delivery [("log/+", 1)] "log/a").2.2
    (by decide) 0 (by decide) (by decide) (fun j hj hji => absurd hji (by omega))

/-- Helper: the explicit form of the `cmd_done` branch of the log
handler. -/
lemma asyncHandleLog_cmd_done (now : Int) (s : Store) (p : LogPayload)
    (ht : p.type = some "cmd_done") :
    asyncHandleLog now s p =
      ({ s with
         executions := s.executions.map (fun e =>
           if e.id == p.exec_id.getD "" then
             { e with
               status := if p.exit_code.getD (-1) == 0 then "success" else "failed",
               exitCode := some (p.exit_code.getD (-1)),
               finishedAt := some now }
           else e),
         nodes := s.nodes.map (fun r =>
           if r.id == p.node_id.getD "" then { r with status := "idle" } else r) },
       [Action.dbUpdateExecution (p.exec_id.getD ""),
        Action.dbUpdateNode (p.node_id.getD ""),
        Action.pushLog (p.node_id.getD "")
          (Event.cmdDone (p.exec_id.getD "") (p.exit_code.getD (-1))
            (if p.exit_code.getD (-1) == 0 then "success" else "failed")),
        Action.broadcastGlobal (Event.nodeUpdate (p.node_id.getD "") none "idle")]) := by
  simp [asyncHandleLog, ht]

/-- C4 counterexample: the same `cmd_done` for execution `e1` handled
at times 1 and 2 — after the duplicate, `finished_at` is 2, not its
value 1 after the first application: the handler overwrites
`finished_at = utcnow()` unconditionally. -/
theorem cmd_done_twice_counterexample :
    (asyncHandleLog 2 (asyncHandleLog 1 doneStore donePayload).1 donePayload).1.executions.map
        (fun e => e.finishedAt) = [some 2] ∧
      (asyncHandleLog 1 doneStore donePayload).1.executions.map
        (fun e => e.finishedAt) = [some 1] ∧
      (asyncHandleLog 2 (asyncHandleLog 1 doneStore donePayload).1 donePayload).1.executions.map
          (fun e => e.finishedAt)
        ≠ (asyncHandleLog 1 doneStore donePayload).1.executions.map
            (fun e => e.finishedAt) := by
  decide

/-- C4 (amended): applying the same `cmd_done` twice yields the same
terminal state as applying it once except for `finished_at`, which is
overwritten with the second handling time: node rows, log rows, the
emitted trace, and every execution field other than `finished_at`
coincide, and when both deliveries are handled at the same timestamp
the states are fully equal. -/
theorem cmd_done_duplicate_tolerated :
    ∀ (s : Store) (p : LogPayload) (t1 t2 : Int), p.type = some "cmd_done" →
      ((asyncHandleLog t2 (asyncHandleLog t1 s p).1 p).1.nodes
          = (asyncHandleLog t1 s p).1.nodes) ∧
      ((asyncHandleLog t2 (asyncHandleLog t1 s p).1 p).1.logs
          = (asyncHandleLog t1 s p).1.logs) ∧
      ((asyncHandleLog t2 (asyncHandleLog t1 s p).1 p).1.executions.map stripFinished
          = (asyncHandleLog t1 s p).1.executions.map stripFinished) ∧
      ((asyncHandleLog t2 (asyncHandleLog t1 s p).1 p).2 = (asyncHandleLog t1 s p).2) ∧
      (t2 = t1 →
        (asyncHandleLog t2 (asyncHandleLog t1 s p).1 p).1 = (asyncHandleLog t1 s p).1) := by
  intro s p t1 t2 ht
  rw [asyncHandleLog_cmd_done t1 s p ht, asyncHandleLog_cmd_done t2 _ p ht]
  dsimp only
  refine ⟨?_, rfl, ?_, rfl, ?_⟩
  · simp only [List.map_map]
    apply List.map_congr_left
    intro r _
    by_cases hr : (r.id == p.node_id.getD "") <;> simp [Function.comp, hr]
  · simp only [List.map_map]
    apply List.map_congr_left
    intro e _
    by_cases he : (e.id == p.exec_id.getD "") <;> simp [Function.comp, stripFinished, he]
  · intro h12
    subst h12
    congr 1
    · simp only [List.map_map]
      apply List.map_congr_left
      intro r _
      by_cases hr : (r.id == p.node_id.getD "") <;> simp [Function.comp, hr]
    · simp only [List.map_map]
      apply List.map_congr_left
      intro e _
      by_cases he : (e.id == p.exec_id.getD "") <;> simp [Function.comp, he]

/-- Witness for C4 (amended): the duplicate-tolerance statement
instantiated on the concrete completion of `e1` on `n1`. -/
theorem cmd_done_duplicate_tolerated_witness :
    (asyncHandleLog 2 (asyncHandleLog 1 doneStore donePayload).1 donePayload).1.executions.map
        stripFinished
      = (asyncHandleLog 1 doneStore donePayload).1.executions.map stripFinished :=
  (cmd_done_duplicate_tolerated doneStore donePayload 1 2 (by decide)).2.2.1

/-- Helper: the register handler never touches the executions
table. -/
lemma register_execs_eq (k f : String) (now : Int) (s : Store) (p : RegisterPayload) :
    (asyncHandleRegister k f now s p).1.executions = s.executions := by
  unfold asyncHandleRegister
  dsimp only
  repeat' split
  all_goals rfl

/-- Helper: the heartbeat handler never touches the executions
table. -/
lemma heartbeat_execs_eq (now : Int) (s : Store) (p : HeartbeatPayload) :
    (asyncHandleHeartbeat now s p).1.executions = s.executions := by
  unfold asyncHandleHeartbeat
  dsimp only
  repeat' split
  all_goals rfl

/-- Helper: the log handler leaves the executions table unchanged
unless the payload is a `cmd_done`. -/
lemma log_execs_eq (now : Int) (s : Store) (p : LogPayload)
    (h : p.type ≠ some "cmd_done") :
    (asyncHandleLog now s p).1.executions = s.executions := by
  unfold asyncHandleLog
  dsimp only
  split
  · rfl
  · split
    · rename_i hc
      rw [beq_iff_eq] at hc
      exact absurd hc h
    · rfl

/-- Helper: dispatch either rejects (no change) or appends exactly the
fresh `running` execution row. -/
lemma execute_execs (f : String) (s : Store) (nid cmd : String) :
    (execute_command f s nid cmd).2.1.executions = s.executions ∨
      (execute_command f s nid cmd).2.1.executions
        = s.executions ++ [⟨f, nid, cmd, "running", none, none⟩] := by
  unfold execute_command dispatch_command
  dsimp only
  repeat' split
  · exact Or.inl rfl
  · exact Or.inl rfl
  · exact Or.inr rfl

/-- Helper: every coordinator operation preserves the terminal-state
invariant. -/
lemma execInv_preserved (op : Op) (s : Store) (h : ExecInv s) :
    ExecInv (applyOp op s).1 := by
  cases op with
  | register k f now p =>
      intro e he hst
      exact h e (by simpa [applyOp, register_execs_eq k f now s p] using he) hst
  | heartbeat now p =>
      intro e he hst
      exact h e (by simpa [applyOp, heartbeat_execs_eq now s p] using he) hst
  | sweep now =>
      intro e he hst
      exact h e he hst
  | execute f nid cmd =>
      intro e he hst
      rcases execute_execs f s nid cmd with hq | hq
      · exact h e (by simpa [applyOp, hq] using he) hst
      · have : e ∈ s.executions ++ [(⟨f, nid, cmd, "running", none, none⟩ : ExecutionRow)] := by
          simpa [applyOp, hq] using he
        rcases List.mem_append.mp this with hm | hm
        · exact h e hm hst
        · simp at hm
          subst hm
          exact absurd rfl hst
  | log now p =>
      by_cases hcd : p.type = some "cmd_done"
      · intro e he hst
        have he' : e ∈ s.executions.map (fun e =>
            if e.id == p.exec_id.getD "" then
              { e with
                status := if p.exit_code.getD (-1) == 0 then "success" else "failed",
                exitCode := some (p.exit_code.getD (-1)),
                finishedAt := some now }
            else e) := by
          simpa [applyOp, asyncHandleLog_cmd_done now s p hcd] using he
        obtain ⟨e0, he0, rfl⟩ := List.mem_map.mp he'
        by_cases hid : (e0.id == p.exec_id.getD "") = true
        · refine ⟨⟨p.exit_code.getD (-1), ?_, ?_⟩, ?_⟩ <;>
            by_cases hz : p.exit_code.getD (-1) = 0 <;> simp [hid, hz]
        · simp only [hid, Bool.false_eq_true, if_false] at hst ⊢
          exact h e0 he0 hst
      · intro e he hst
        exact h e (by simpa [applyOp, log_execs_eq now s p hcd] using he) hst

/-- Helper: any execution row present after an operation under an id
that was absent before was just created by dispatch, in `running`
state with no exit code and no finish time. -/
lemma created_running (op : Op) (s : Store) (e : ExecutionRow)
    (he : e ∈ (applyOp op s).1.executions)
    (hfresh : ∀ e0 ∈ s.executions, e0.id ≠ e.id) :
    e.status = "running" ∧ e.exitCode = none ∧ e.finishedAt = none := by
  cases op with
  | register k f now p =>
      exact absurd rfl
        (hfresh e (by simpa [applyOp, register_execs_eq k f now s p] using he))
  | heartbeat now p =>
      exact absurd rfl
        (hfresh e (by simpa [applyOp, heartbeat_execs_eq now s p] using he))
  | sweep now => exact absurd rfl (hfresh e he)
  | execute f nid cmd =>
      rcases execute_execs f s nid cmd with hq | hq
      · exact absurd rfl (hfresh e (by simpa [applyOp, hq] using he))
      · have : e ∈ s.executions ++ [(⟨f, nid, cmd, "running", none, none⟩ : ExecutionRow)] := by
          simpa [applyOp, hq] using he
        rcases List.mem_append.mp this with hm | hm
        · exact absurd rfl (hfresh e hm)
        · simp at hm
          subst hm
          exact ⟨rfl, rfl, rfl⟩
  | log now p =>
      by_cases hcd : p.type = some "cmd_done"
      · have he' : e ∈ s.executions.map (fun e =>
            if e.id == p.exec_id.getD "" then
              { e with
                status := if p.exit_code.getD (-1) == 0 then "success" else "failed",
                exitCode := some (p.exit_code.getD (-1)),
                finishedAt := some now }
            else e) := by
          simpa [applyOp, asyncHandleLog_cmd_done now s p hcd] using he
        obtain ⟨e0, he0, rfl⟩ := List.mem_map.mp he'
        have hid : (if (e0.id == p.exec_id.getD "") = true then
            { e0 with
              status := if p.exit_code.getD (-1) == 0 then "success" else "failed",
              exitCode := some (p.exit_code.getD (-1)),
              finishedAt := some now }
          else e0).id = e0.id := by
          by_cases h0 : (e0.id == p.exec_id.getD "") = true <;> simp [h0]
        have := hfresh e0 he0
        rw [hid] at this
        exact absurd rfl this
      · exact absurd rfl (hfresh e (by simpa [applyOp, log_execs_eq now s p hcd] using he))

/-- Helper: every operation other than a `cmd_done` delivery leaves
all existing execution rows untouched (the old table is a prefix of
the new one). -/
lemma non_cmd_done_prefix (op : Op) (s : Store) (hop : ¬ op.isCmdDone) :
    s.executions <+: (applyOp op s).1.executions := by
  cases op with
  | register k f now p =>
      rw [show (applyOp (Op.register k f now p) s).1.executions = s.executions from
        register_execs_eq k f now s p]
  | heartbeat now p =>
      rw [show (applyOp (Op.heartbeat now p) s).1.executions = s.executions from
        heartbeat_execs_eq now s p]
  | sweep now => exact List.prefix_refl _
  | execute f nid cmd =>
      rcases execute_execs f s nid cmd with hq | hq
      · rw [show (applyOp (Op.execute f nid cmd) s).1.executions = s.executions from hq]
      · rw [show (applyOp (Op.execute f nid cmd) s).1.executions
            = s.executions ++ [(⟨f, nid, cmd, "running", none, none⟩ : ExecutionRow)] from hq]
        exact List.prefix_append _ _
  | log now p =>
      have hcd : p.type ≠ some "cmd_done" := hop
      rw [show (applyOp (Op.log now p) s).1.executions = s.executions from
        log_execs_eq now s p hcd]

/-- C2: over all stores reachable by coordinator operations, every
execution row whose status is not `running` has `exit_code` and
`finished_at` set with status `success` iff the exit code is 0; a row
is created only by dispatch, in status `running` with `exit_code` and
`finished_at` absent; and every operation other than the `cmd_done`
branch of the log handler leaves existing execution rows untouched —
so only `cmd_done` moves an execution to a terminal status. -/
theorem execution_terminal_invariant :
    (∀ s : Store, Reachable s → ExecInv s) ∧
      (∀ (op : Op) (s : Store) (e : ExecutionRow),
        e ∈ (applyOp op s).1.executions →
        (∀ e0 ∈ s.executions, e0.id ≠ e.id) →
        e.status = "running" ∧ e.exitCode = none ∧ e.finishedAt = none) ∧
      (∀ (op : Op) (s : Store), ¬ op.isCmdDone →
        s.executions <+: (applyOp op s).1.executions) := by
  refine ⟨?_, created_running, non_cmd_done_prefix⟩
  intro s hr
  induction hr with
  | init => intro e he _; simp [Store.empty] at he
  | step op _ ih => exact execInv_preserved op _ ih

/-- Witness for C2: the invariant holds of the concrete reachable
store produced by one dispatch from the empty store. -/
theorem execution_terminal_invariant_witness :
    ExecInv (applyOp (Op.execute "e1" "n1" "echo hi") Store.empty).1 :=
  execution_terminal_invariant.1 _ (Reachable.step _ Reachable.init)

/-- Helper: `find?` skips a prefix of failures and returns the first
success. -/
lemma find_skip_prefix {α : Type} (p : α → Bool) :
    ∀ (pre : List α) (x : α) (post : List α),
      (∀ a ∈ pre, p a = false) → p x = true →
      (pre ++ x :: post).find? p = some x := by
  intro pre
  induction pre with
  | nil => intro x post _ hx; exact List.find?_cons_of_pos _ hx
  | cons a l ih =>
    intro x post hpre hx
    rw [List.cons_append, List.find?_cons_of_neg _ (by simp [hpre a (by simp)])]
    exact ih x post (fun b hb => hpre b (by simp [hb])) hx

/-- Helper: mapping a function that fixes every element is the
identity. -/
lemma map_self_of {α : Type} (l : List α) (f : α → α) (h : ∀ x ∈ l, f x = x) :
    l.map f = l := by
  induction l with
  | nil => rfl
  | cons x xs ih =>
    rw [List.map_cons, h x (by simp), ih (fun b hb => h b (by simp [hb]))]

/-- Helper: the filter keeping a single marked element. -/
lemma filter_single {α : Type} (p : α → Bool) (pre : List α) (x : α) (post : List α)
    (hpre : ∀ a ∈ pre, p a = false) (hx : p x = true)
    (hpost : ∀ a ∈ post, p a = false) :
    (pre ++ x :: post).filter p = [x] := by
  rw [List.filter_append, List.filter_cons,
    List.filter_eq_nil_iff.mpr (fun a ha => by simp [hpre a ha]),
    List.filter_eq_nil_iff.mpr (fun a ha => by simp [hpost a ha])]
  simp [hx]

/-- Helper: a well-keyed `register_req` for a name that already has
its unique row reuses the row — same id in the ack — and only updates
ip, status and heartbeat of that row. -/
lemma register_reuses_row (k f ip : String) (now : Int) (s : Store) (n fid : String)
    (hinv : UniqueOnlineNode s n fid) :
    ∃ pre nd post,
      s.nodes = pre ++ nd :: post ∧ nd.name = n ∧ nd.id = fid ∧
      (∀ r ∈ pre, r.name ≠ n ∧ r.id ≠ fid) ∧
      (∀ r ∈ post, r.name ≠ n ∧ r.id ≠ fid) ∧
      (asyncHandleRegister k f now s (reqPayload n k ip)).1
        = { s with nodes := pre ++
            { nd with ip := ip, status := "online", lastHeartbeat := some now } :: post } ∧
      (asyncHandleRegister k f now s (reqPayload n k ip)).2
        = [Action.dbUpdateNode fid,
           Action.publish TOPIC_REGISTER (WireMsg.registerAck fid ("欢迎, " ++ n ++ "!")),
           Action.broadcastGlobal (Event.nodeUpdate fid (some n) "online")] := by
  obtain ⟨pre, nd, post, hnodes, hname, hid, hstat, hpre, hpost⟩ := hinv
  have hfind : findNodeByName s n = some nd := by
    unfold findNodeByName
    rw [hnodes]
    exact find_skip_prefix _ pre nd post
      (fun a ha => by simp [(hpre a ha).1]) (by simp [hname])
  refine ⟨pre, nd, post, hnodes, hname, hid, hpre, hpost, ?_, ?_⟩
  · simp only [asyncHandleRegister, reqPayload]
    norm_num [hfind]
    rw [hnodes, List.map_append, List.map_cons]
    congr 1
    · exact map_self_of _ _ (fun r hr => by simp [hid, (hpre r hr).2])
    · congr 1
      · simp
      · exact map_self_of _ _ (fun r hr => by simp [hid, (hpost r hr).2])
  · simp [asyncHandleRegister, reqPayload, hfind, hid]

/-- Helper: a `register_req` for an unknown name inserts one fresh
`online` row and acks the drawn id. -/
lemma register_inserts_new (k f ip : String) (now : Int) (s : Store) (n : String)
    (hname : ∀ r ∈ s.nodes, r.name ≠ n) :
    (asyncHandleRegister k f now s (reqPayload n k ip)).1
      = { s with nodes := s.nodes ++ [⟨f, n, ip, "online", 0, 0, some now⟩] } ∧
    (asyncHandleRegister k f now s (reqPayload n k ip)).2
      = [Action.dbInsertNode f,
         Action.publish TOPIC_REGISTER (WireMsg.registerAck f ("欢迎, " ++ n ++ "!")),
         Action.broadcastGlobal (Event.nodeUpdate f (some n) "online")] := by
  have hfind : findNodeByName s n = none := by
    unfold findNodeByName
    rw [List.find?_eq_none]
    intro x hx
    simp [hname x hx]
  constructor <;> simp [asyncHandleRegister, reqPayload, hfind]

/-- Helper: a run of well-keyed same-name registrations against a
store already holding the unique row acks the same id every time,
preserves the row's uniqueness and never changes the node count. -/
lemma registerRun_reuses (k n : String) :
    ∀ (reqs : List (String × String × Int)) (s : Store) (fid : String),
      UniqueOnlineNode s n fid →
      (registerRun k n reqs s).2.map ackIds = reqs.map (fun _ => [fid]) ∧
      UniqueOnlineNode (registerRun k n reqs s).1 n fid ∧
      (registerRun k n reqs s).1.nodes.length = s.nodes.length := by
  intro reqs
  induction reqs with
  | nil => intro s fid h; exact ⟨rfl, h, rfl⟩
  | cons q rest ih =>
    intro s fid h
    obtain ⟨f, ip, now⟩ := q
    obtain ⟨pre, nd, post, hnodes, hname, hid, hpre, hpost, hst, htr⟩ :=
      register_reuses_row k f ip now s n fid h
    have hinv1 : UniqueOnlineNode (asyncHandleRegister k f now s (reqPayload n k ip)).1 n fid := by
      refine ⟨pre, { nd with ip := ip, status := "online", lastHeartbeat := some now },
        post, ?_, hname, hid, rfl, hpre, hpost⟩
      rw [hst]
    have hlen1 : (asyncHandleRegister k f now s (reqPayload n k ip)).1.nodes.length
        = s.nodes.length := by
      rw [hst, hnodes]
      simp
    obtain ⟨ha, hb, hc⟩ := ih (asyncHandleRegister k f now s (reqPayload n k ip)).1 fid hinv1
    refine ⟨?_, ?_, ?_⟩
    · show ackIds (asyncHandleRegister k f now s (reqPayload n k ip)).2
          :: (registerRun k n rest (asyncHandleRegister k f now s (reqPayload n k ip)).1).2.map ackIds
        = [fid] :: rest.map (fun _ => [fid])
      rw [htr, ha]
      rfl
    · exact hb
    · show (registerRun k n rest (asyncHandleRegister k f now s (reqPayload n k ip)).1).1.nodes.length
        = s.nodes.length
      rw [hc, hlen1]

/-- C3: registration is idempotent on `node_name`: for a sequence of
N ≥ 1 well-keyed `register_req`s with the same name against a store
with no node of that name (and no node with the drawn id), every
`register_ack` carries the id drawn for the first request; the first
request inserts exactly one row and later requests reuse it — the
fleet grows by exactly one row, exactly one row of that name exists at
the end, `online` with the first id — and a repeat registration only
updates the existing row's ip, status and last_heartbeat in place. -/
theorem registration_idempotent :
    ∀ (k n f1 ip1 : String) (t1 : Int) (rest : List (String × String × Int)) (s : Store),
      (∀ r ∈ s.nodes, r.name ≠ n) → (∀ r ∈ s.nodes, r.id ≠ f1) →
      ((registerRun k n ((f1, ip1, t1) :: rest) s).2.map ackIds
          = ((f1, ip1, t1) :: rest).map (fun _ => [f1])) ∧
      ((registerRun k n ((f1, ip1, t1) :: rest) s).1.nodes.length = s.nodes.length + 1) ∧
      (∃ nd, (registerRun k n ((f1, ip1, t1) :: rest) s).1.nodes.filter
            (fun r => r.name == n) = [nd] ∧ nd.id = f1 ∧ nd.status = "online") ∧
      (∀ (s' : Store) (fid f' ip' : String) (now : Int),
        UniqueOnlineNode s' n fid →
        ∃ pre nd post, s'.nodes = pre ++ nd :: post ∧ nd.name = n ∧ nd.id = fid ∧
          (asyncHandleRegister k f' now s' (reqPayload n k ip')).1.nodes
            = pre ++
                { nd with ip := ip', status := "online", lastHeartbeat := some now }
                :: post) := by
  intro k n f1 ip1 t1 rest s hname hid
  have hins := register_inserts_new k f1 ip1 t1 s n hname
  have hinv1 : UniqueOnlineNode (asyncHandleRegister k f1 t1 s (reqPayload n k ip1)).1 n f1 := by
    refine ⟨s.nodes, ⟨f1, n, ip1, "online", 0, 0, some t1⟩, [], ?_, rfl, rfl, rfl, ?_, ?_⟩
    · rw [hins.1]
    · intro r hr; exact ⟨hname r hr, hid r hr⟩
    · intro r hr; simp at hr
  obtain ⟨ha, hb, hc⟩ :=
    registerRun_reuses k n rest (asyncHandleRegister k f1 t1 s (reqPayload n k ip1)).1 f1 hinv1
  have hlen1 : (asyncHandleRegister k f1 t1 s (reqPayload n k ip1)).1.nodes.length
      = s.nodes.length + 1 := by
    rw [hins.1]
    simp
  refine ⟨?_, ?_, ?_, ?_⟩
  · show ackIds (asyncHandleRegister k f1 t1 s (reqPayload n k ip1)).2
        :: (registerRun k n rest (asyncHandleRegister k f1 t1 s (reqPayload n k ip1)).1).2.map ackIds
      = [f1] :: rest.map (fun _ => [f1])
    rw [hins.2, ha]
    rfl
  · show (registerRun k n rest (asyncHandleRegister k f1 t1 s (reqPayload n k ip1)).1).1.nodes.length
      = s.nodes.length + 1
    rw [hc, hlen1]
  · obtain ⟨pre, nd, post, hn, hnm, hidd, hstat, hpre, hpost⟩ := hb
    refine ⟨nd, ?_, hidd, hstat⟩
    show (registerRun k n rest (asyncHandleRegister k f1 t1 s (reqPayload n k ip1)).1).1.nodes.filter
        (fun r => r.name == n) = [nd]
    rw [hn]
    exact filter_single _ pre nd post (fun a haa => by simp [(hpre a haa).1])
      (by simp [hnm]) (fun a haa => by simp [(hpost a haa).1])
  · intro s' fid f' ip' now hinv
    obtain ⟨pre, nd, post, hnodes, hnm, hidd, hpre, hpost, hst, _⟩ :=
      register_reuses_row k f' ip' now s' n fid hinv
    refine ⟨pre, nd, post, hnodes, hnm, hidd, ?_⟩
    rw [hst]

/-- Witness for C3: two registrations of `edge-01` from the empty
store ack the same id `abc123def456` drawn at the first request. -/
theorem registration_idempotent_witness :
    (registerRun "k" "edge-01"
        [("abc123def456", "10.0.0.1", 0), ("ffffffffffff", "10.0.0.2", 5)] Store.empty).2.map ackIds
      = [["abc123def456"], ["abc123def456"]] :=
  (registration_idempotent "k" "edge-01" "abc123def456" "10.0.0.1" 0
    [("ffffffffffff", "10.0.0.2", 5)] Store.empty
    (by intro r hr; simp [Store.empty] at hr) (by intro r hr; simp [Store.empty] at hr)).1

end EdgeStelle
